import Mathlib

/-!
Verification development for the Mlisp interpreter: a shallow embedding of
the tokenizer output type, the recursive-descent parser (src/parse.rs) and
the evaluator with its environment (src/eval.rs), together with theorems
about the behaviour of these functions.

Modelling conventions:
* `f64` numbers are modelled as exact rationals (`ℚ`).  Every numeric value
  appearing in the properties below is a small integer, on which `f64`
  arithmetic is exact, so the model agrees with the code there.
* Rust's `&mut Environment` threading is modelled by explicit state passing:
  each evaluation function returns the result together with the environment.
* A Rust panic (out-of-bounds slice index) is modelled by the distinguished
  outcome `Step.panic`; running out of recursion fuel is `Step.nofuel`.
  Every recursive call decreases the fuel, so any terminating run of the
  Rust code is reproduced by the model at a large enough fuel.
* Error message strings mirror the source; the `{:?}` (Debug) fragments are
  approximated by a simple printer, and no theorem depends on their content
  except for the exact parser message "Unclosed delimiter".
-/

/-- Modelled from the spec: the expression data model of `src/types.rs`
(not under `src/`): `Number(f64)` (called `FNum` by the code), `Symbol`,
and `List` of shared sub-expressions, per spec section 3.  `f64` is
modelled as `ℚ`. -/
inductive Expr : Type where
  | fnum (n : ℚ)
  | symbol (s : String)
  | list (l : List Expr)

mutual

def Expr.decEq : (a b : Expr) → Decidable (a = b)
  | .fnum a, .fnum b =>
    if h : a = b then isTrue (by rw [h]) else isFalse (fun hh => by cases hh; exact h rfl)
  | .symbol a, .symbol b =>
    if h : a = b then isTrue (by rw [h]) else isFalse (fun hh => by cases hh; exact h rfl)
  | .list as, .list bs =>
    match Expr.decEqList as bs with
    | isTrue h => isTrue (by rw [h])
    | isFalse h => isFalse (fun hh => by cases hh; exact h rfl)
  | .fnum _, .symbol _ => isFalse (fun h => nomatch h)
  | .fnum _, .list _ => isFalse (fun h => nomatch h)
  | .symbol _, .fnum _ => isFalse (fun h => nomatch h)
  | .symbol _, .list _ => isFalse (fun h => nomatch h)
  | .list _, .fnum _ => isFalse (fun h => nomatch h)
  | .list _, .symbol _ => isFalse (fun h => nomatch h)

def Expr.decEqList : (as bs : List Expr) → Decidable (as = bs)
  | [], [] => isTrue rfl
  | [], _ :: _ => isFalse (fun h => nomatch h)
  | _ :: _, [] => isFalse (fun h => nomatch h)
  | a :: as, b :: bs =>
    match Expr.decEq a b, Expr.decEqList as bs with
    | isTrue h1, isTrue h2 => isTrue (by rw [h1, h2])
    | isFalse h1, _ => isFalse (fun hh => by injection hh with j1 j2; exact h1 j1)
    | _, isFalse h2 => isFalse (fun hh => by injection hh with j1 j2; exact h2 j2)

end

instance : DecidableEq Expr := Expr.decEq

instance {ε α : Type} [DecidableEq ε] [DecidableEq α] : DecidableEq (Except ε α)
  | .error a, .error b =>
    if h : a = b then isTrue (by rw [h]) else isFalse (fun hh => by cases hh; exact h rfl)
  | .ok a, .ok b =>
    if h : a = b then isTrue (by rw [h]) else isFalse (fun hh => by cases hh; exact h rfl)
  | .error _, .ok _ => isFalse (fun h => nomatch h)
  | .ok _, .error _ => isFalse (fun h => nomatch h)

/-- `EvalResult` of `src/eval.rs`: `Err(String)`, `Expr(Rc<Expr>)`, `Unit`. -/
inductive EvalResult : Type where
  | err (msg : String)
  | expr (e : Expr)
  | unit
deriving DecidableEq

/-- One environment frame: a map from names to `(param_names, expr)`
bindings.  Rust uses a `HashMap`; the model uses an association list whose
`insert` replaces an existing key in place (keys are unique in a frame), so
`lookup` agrees with the `HashMap`. -/
abbrev Frame : Type := List (String × (List String × Expr))

def Frame.insertKV (c : Frame) (k : String) (v : List String × Expr) : Frame :=
  if c.any (fun p => p.1 = k) then
    c.map (fun p => if p.1 = k then (k, v) else p)
  else
    c ++ [(k, v)]

def Frame.get (c : Frame) (k : String) : Option (List String × Expr) :=
  (c.find? (fun p => p.1 = k)).map (fun p => p.2)

def Frame.containsKey (c : Frame) (k : String) : Bool :=
  c.any (fun p => p.1 = k)

/-- `Environment` of `src/eval.rs`: a stack of frames.  The Rust `Vec`
pushes at the end and looks up in reverse; the model keeps the innermost
frame at the head of the list, so `push`/`pop` act on the head and lookup
searches head to tail (innermost to outermost), exactly matching
`contexts.iter().rev()`. -/
structure Environment : Type where
  contexts : List Frame
deriving DecidableEq

/-- `Environment::default`: one frame binding `False` to the empty list and
`True` to `[FNum(1.0)]`. -/
def Environment.default : Environment :=
  ⟨[[(("False"), ([], .list [])), (("True"), ([], .list [.fnum 1]))]]⟩

/-- `Environment::lookup`: first frame (innermost first) that contains the
symbol, then its binding. -/
def Environment.lookup (env : Environment) (symbol : String) : Option (List String × Expr) :=
  match env.contexts.find? (fun c => Frame.containsKey c symbol) with
  | some c => Frame.get c symbol
  | none => none

/-- `Environment::contains_key`. -/
def Environment.contains_key (env : Environment) (symbol : String) : Bool :=
  env.contexts.any (fun c => Frame.containsKey c symbol)

/-- `Environment::push_context`. -/
def Environment.push_context (env : Environment) : Environment :=
  ⟨[] :: env.contexts⟩

/-- `Environment::pop_context` (popping an empty stack is a no-op, like
`Vec::pop`). -/
def Environment.pop_context (env : Environment) : Environment :=
  ⟨env.contexts.tail⟩

/-- `Environment::add_var`: insert `(var, ([], val))` into the innermost
frame; fails when there is no frame. -/
def Environment.add_var (env : Environment) (var : String) (val : Expr) :
    Except String Environment :=
  match env.contexts with
  | [] => .error ("Environment has no context to add to.")
  | c :: cs => .ok ⟨Frame.insertKV c var ([], val) :: cs⟩

/-- `Environment::add_fn`: insert `(name, (params, body))` into the
innermost frame; fails when there is no frame. -/
def Environment.add_fn (env : Environment) (name : String) (params : List String)
    (body : Expr) : Except String Environment :=
  match env.contexts with
  | [] => .error ("Environment does not have a context to add to.")
  | c :: cs => .ok ⟨Frame.insertKV c name (params, body) :: cs⟩

/-- The `let _ = env.add_var(..)` pattern of `eval_symbol`: the failure is
discarded, leaving the environment unchanged. -/
def Environment.add_var_discard (env : Environment) (var : String) (val : Expr) :
    Environment :=
  match env.add_var var val with
  | .ok e2 => e2
  | .error _ => env

/-- `Environment::num_contexts`. -/
def Environment.num_contexts (env : Environment) : Nat :=
  env.contexts.length

/-- Outcome of running a (possibly panicking) computation under fuel:
`ok` is a normal return, `panic` models a Rust panic (slice index out of
bounds), `nofuel` means the recursion budget ran out. -/
inductive Step (α : Type) : Type where
  | ok (a : α)
  | panic
  | nofuel
deriving DecidableEq

abbrev EvalOut := Step (EvalResult × Environment)

/-- Debug printing of a string, approximating Rust's `{:?}` for `String`. -/
def strDebug (s : String) : String :=
  "\"" ++ s ++ "\""

mutual

/-- Approximates Rust's `{:?}` (derived Debug) rendering of an `Expr`.
No theorem below depends on its output. -/
def exprDebug : Expr → String
  | .fnum n => "FNum(" ++ toString n ++ ")"
  | .symbol s => "Symbol(" ++ strDebug s ++ ")"
  | .list l => "List([" ++ exprDebugList l ++ "])"

def exprDebugList : List Expr → String
  | [] => ""
  | [x] => exprDebug x
  | x :: y :: xs => exprDebug x ++ ", " ++ exprDebugList (y :: xs)

end

/-- `is_equal_list` of `src/eval.rs`: `"False"` when some element differs
from the first, else `"True"`.  The Rust function indexes `vals[0]`, which
panics on an empty vector: that case is `none`. -/
def isEqualList : List Expr → Option String
  | [] => none
  | c :: rest => some (if rest.all (fun x => x = c) then "True" else "False")

/-- `is_equal_symbol` of `src/eval.rs` (used by `!=`): `"True"` when some
element differs from the first, else `"False"`; panics on empty input. -/
def isEqualSymbol : List Expr → Option String
  | [] => none
  | c :: rest => some (if rest.any (fun x => x ≠ c) then "True" else "False")

/-- `bool_and` of `src/eval.rs`: `True` iff every raw argument expression is
structurally equal to the first.  `Iterator::all` on an empty slice is
vacuously true and never evaluates `vals[0]`, so no panic occurs. -/
def boolAnd (vals : List Expr) : EvalResult :=
  match vals with
  | [] => .expr (.symbol ("True"))
  | v :: _ =>
    if vals.all (fun x => x = v) then .expr (.symbol ("True"))
    else .expr (.symbol ("False"))

/-- `bool_or` of `src/eval.rs`: `True` iff some raw argument expression is
the literal symbol `True`. -/
def boolOr (vals : List Expr) : EvalResult :=
  if vals.any (fun x => x = Expr.symbol ("True")) then .expr (.symbol ("True"))
  else .expr (.symbol ("False"))

/-- `add_fn_to_env` of `src/eval.rs`.  The source builds an arity error for
`vals.len() != 3` but lacks a `return`, so that check has no effect:
fewer than 3 elements panics on `vals[1]`/`vals[2]` indexing, and extra
elements beyond the first three are silently ignored. -/
def addFnToEnv (vals : List Expr) (env : Environment) : EvalOut :=
  match vals with
  | v0 :: v1 :: v2 :: _ =>
    match v0, v1 with
    | .symbol fnName, .list params =>
      let ps : Except String (List String) :=
        params.foldr
          (fun e acc =>
            match e with
            | .symbol n => match acc with
              | .ok xs => .ok (n :: xs)
              | .error err => .error err
            | _ => .error ("Function parameters must be symbols."))
          (.ok [])
      match ps with
      | .error err => .ok (.err err, env)
      | .ok xs =>
        match env.add_fn fnName xs v2 with
        | .error err => .ok (.err err, env)
        | .ok env2 => .ok (.unit, env2)
    | _, _ =>
      .ok (.err ("Function definitions must follow the pattern (fn fn-name (arg1 arg2 arg3 .. argn) <Expr>)"), env)
  | _ => .panic

mutual

/-- `eval` of `src/eval.rs`.  Numbers are self-evaluating, symbols go to
`eval_symbol`, the empty list evaluates to itself, and a non-empty list
dispatches on its head: the reserved operators in source order, then a
bound symbol as application, then the generic branch. -/
def eval : Nat → Expr → Environment → EvalOut
  | 0, _, _ => .nofuel
  | f+1, e, env =>
    match e with
    | .fnum _ => .ok (.expr e, env)
    | .symbol s => evalSymbol f e s [] env
    | .list vals =>
      match vals with
      | [] => .ok (.expr (.list []), env)
      | op :: rest =>
        match op with
        | .symbol s =>
          if s = "+" then addVals f rest env
          else if s = "-" then subVals f rest env
          else if s = "*" then mulVals f rest env
          else if s = "/" then divVals f rest env
          else if s = "=" then equality f rest env
          else if s = "!=" then inequality f rest env
          else if s = "not" then
            match rest with
            | a :: _ => notOp f a env
            | [] => .panic
          else if s = "and" then .ok (boolAnd rest, env)
          else if s = "or" then .ok (boolOr rest, env)
          else if s = "fn" then addFnToEnv rest env
          else if s = "let" then addVarToEnv f rest env
          else if s = "print" then .ok (.unit, env)
          else if s = "if" then ifThenElse f rest env
          else if env.contains_key s then evalSymbol f e s rest env
          else evalList f (op :: rest) env
        | _ => evalList f (op :: rest) env

/-- `eval_symbol` of `src/eval.rs`: an unbound symbol evaluates to itself; a
binding with no parameters is evaluated in the current environment; a
function binding checks the argument count, evaluates the arguments in the
caller's environment, pushes a frame, binds them, evaluates the body and
pops the frame on both the success and the error path. -/
def evalSymbol : Nat → Expr → String → List Expr → Environment → EvalOut
  | 0, _, _, _, _ => .nofuel
  | f+1, expr, sym, args, env =>
    match env.lookup sym with
    | none => .ok (.expr expr, env)
    | some (paramNames, expression) =>
      if paramNames.isEmpty then eval f expression env
      else if args.length ≠ paramNames.length then
        .ok (.err ("provided " ++ toString args.length ++ " arguments but expected "
          ++ toString paramNames.length), env)
      else
        match evalArgs f (args.zip paramNames) env with
        | .ok (.error msg, env1) =>
          .ok (.err msg, (env1.push_context).pop_context)
        | .ok (.ok argum, env1) =>
          let env2 := argum.foldl
            (fun acc nv => acc.add_var_discard nv.1 nv.2) env1.push_context
          match eval f expression env2 with
          | .ok (result, env3) => .ok (result, env3.pop_context)
          | .panic => .panic
          | .nofuel => .nofuel
        | .panic => .panic
        | .nofuel => .nofuel

/-- The `mapped_args` collection of `eval_symbol`: evaluate each argument in
order in the caller's environment, pairing the value with the parameter
name; the first `Err` short-circuits, and a `Unit` argument is an error. -/
def evalArgs : Nat → List (Expr × String) → Environment →
    Step ((Except String (List (String × Expr))) × Environment)
  | 0, _, _ => .nofuel
  | _+1, [], env => .ok (.ok [], env)
  | f+1, p :: ps, env =>
    match eval f p.1 env with
    | .ok (.expr e, env1) =>
      match evalArgs f ps env1 with
      | .ok (.ok rest2, env2) => .ok (.ok ((p.2, e) :: rest2), env2)
      | other => other
    | .ok (.err err, env1) => .ok (.error err, env1)
    | .ok (.unit, env1) =>
      .ok (.error ("Cannot pass Unit as an argument to a function."), env1)
    | .panic => .panic
    | .nofuel => .nofuel

/-- The fallible fold shared by the four arithmetic operators: evaluate each
argument to a number, short-circuiting on the first failure.  `msgOp` is the
operator-specific "Can only ..." prefix. -/
def evalNums (msgOp : String) : Nat → List Expr → Environment →
    Step ((Except String (List ℚ)) × Environment)
  | 0, _, _ => .nofuel
  | _+1, [], env => .ok (.ok [], env)
  | f+1, v :: vs, env =>
    match eval f v env with
    | .ok (.expr (.fnum n), env1) =>
      match evalNums msgOp f vs env1 with
      | .ok (.ok ns, env2) => .ok (.ok (n :: ns), env2)
      | other => other
    | .ok (.expr ex, env1) => .ok (.error (msgOp ++ exprDebug ex), env1)
    | .ok (_, env1) => .ok (.error ("Failed to eval expr: " ++ exprDebug v), env1)
    | .panic => .panic
    | .nofuel => .nofuel

/-- `add_vals`: at least one argument, evaluate all to numbers, sum. -/
def addVals : Nat → List Expr → Environment → EvalOut
  | 0, _, _ => .nofuel
  | f+1, vals, env =>
    if vals = [] then
      .ok (.err ("Must perform addition on at least one number"), env)
    else match evalNums ("Can only sum numbers, got ") f vals env with
      | .ok (.error err, env1) => .ok (.err err, env1)
      | .ok (.ok xs, env1) => .ok (.expr (.fnum (xs.foldl (· + ·) 0)), env1)
      | .panic => .panic
      | .nofuel => .nofuel

/-- `subtract`: `vals[0]` minus each subsequent element, in order. -/
def subtract : List ℚ → Option ℚ
  | [] => none
  | x :: rest => some (rest.foldl (· - ·) x)

/-- `sub_vals`: at least one argument, evaluate all to numbers, left fold of
subtraction over the tail starting from the first number. -/
def subVals : Nat → List Expr → Environment → EvalOut
  | 0, _, _ => .nofuel
  | f+1, vals, env =>
    if vals = [] then
      .ok (.err ("Must perform subtraction on at least one number"), env)
    else match evalNums ("Can only subtract numers, got ") f vals env with
      | .ok (.error err, env1) => .ok (.err err, env1)
      | .ok (.ok xs, env1) =>
        match subtract xs with
        | some r => .ok (.expr (.fnum r), env1)
        | none => .panic
      | .panic => .panic
      | .nofuel => .nofuel

/-- `mul_vals`: at least one argument, evaluate all to numbers, product. -/
def mulVals : Nat → List Expr → Environment → EvalOut
  | 0, _, _ => .nofuel
  | f+1, vals, env =>
    if vals = [] then
      .ok (.err ("Must perform multiplication on at least one number"), env)
    else match evalNums ("Can only sum numers, got ") f vals env with
      | .ok (.error err, env1) => .ok (.err err, env1)
      | .ok (.ok xs, env1) => .ok (.expr (.fnum (xs.foldl (· * ·) 1)), env1)
      | .panic => .panic
      | .nofuel => .nofuel

/-- `divide`: `vals[0]` divided by each subsequent element, in order. -/
def divide : List ℚ → Option ℚ
  | [] => none
  | x :: rest => some (rest.foldl (· / ·) x)

/-- `div_vals`: at least one argument (the empty-argument message says
"addition", as in the source), evaluate all to numbers, iterated division. -/
def divVals : Nat → List Expr → Environment → EvalOut
  | 0, _, _ => .nofuel
  | f+1, vals, env =>
    if vals = [] then
      .ok (.err ("Must perform addition on at least one number"), env)
    else match evalNums ("Can only sum numers, got ") f vals env with
      | .ok (.error err, env1) => .ok (.err err, env1)
      | .ok (.ok xs, env1) =>
        match divide xs with
        | some r => .ok (.expr (.fnum r), env1)
        | none => .panic
      | .panic => .panic
      | .nofuel => .nofuel

/-- The evaluation fold shared by `equality` and `inequality`: evaluate each
argument, short-circuiting on the first failure; `Unit` is an error. -/
def evalExprs : Nat → List Expr → Environment →
    Step ((Except String (List Expr)) × Environment)
  | 0, _, _ => .nofuel
  | _+1, [], env => .ok (.ok [], env)
  | f+1, v :: vs, env =>
    match eval f v env with
    | .ok (.expr e, env1) =>
      match evalExprs f vs env1 with
      | .ok (.ok es, env2) => .ok (.ok (e :: es), env2)
      | other => other
    | .ok (.unit, env1) => .ok (.error ("Failed to eval, got Unit"), env1)
    | .ok (.err err, env1) =>
      .ok (.error ("Failed to eval expr: " ++ strDebug err), env1)
    | .panic => .panic
    | .nofuel => .nofuel

/-- `equality` (`=`): evaluate all arguments and compare them against the
first with `is_equal_list`. -/
def equality : Nat → List Expr → Environment → EvalOut
  | 0, _, _ => .nofuel
  | f+1, vals, env =>
    if vals = [] then .ok (.err ("\x27=\x27 with no arguments"), env)
    else match evalExprs f vals env with
      | .ok (.error err, env1) => .ok (.err err, env1)
      | .ok (.ok xs, env1) =>
        match isEqualList xs with
        | some s => .ok (.expr (.symbol s), env1)
        | none => .panic
      | .panic => .panic
      | .nofuel => .nofuel

/-- `inequality` (`!=`): evaluate all arguments and compare with
`is_equal_symbol` (its empty-argument message says "not", as in the
source). -/
def inequality : Nat → List Expr → Environment → EvalOut
  | 0, _, _ => .nofuel
  | f+1, vals, env =>
    if vals = [] then .ok (.err ("\x27not\x27 with no arguments"), env)
    else match evalExprs f vals env with
      | .ok (.error err, env1) => .ok (.err err, env1)
      | .ok (.ok xs, env1) =>
        match isEqualSymbol xs with
        | some s => .ok (.expr (.symbol s), env1)
        | none => .panic
      | .panic => .panic
      | .nofuel => .nofuel

/-- `not` of `src/eval.rs`: evaluates its single argument; if that fails the
error is re-wrapped, otherwise the *unevaluated* argument expression is
inspected: the symbols `True`/`False` are flipped, a list is handed to
`is_equal_list` (which panics on the empty list), anything else is an
error. -/
def notOp : Nat → Expr → Environment → EvalOut
  | 0, _, _ => .nofuel
  | f+1, arg, env =>
    match eval f arg env with
    | .ok (.err e, env1) =>
      .ok (.err ("Failed to eval expr: " ++ strDebug e), env1)
    | .ok (_, env1) =>
      match arg with
      | .symbol s =>
        if s = "True" then .ok (.expr (.symbol ("False")), env1)
        else if s = "False" then .ok (.expr (.symbol ("True")), env1)
        else .ok (.err ("Invalid input for not operator 1"), env1)
      | .list l =>
        match isEqualList l with
        | some s => .ok (.expr (.symbol s), env1)
        | none => .panic
      | _ => .ok (.err ("Invalid input for not operator 21"), env1)
    | .panic => .panic
    | .nofuel => .nofuel

/-- `add_var_to_env` (`let`): exactly two elements, the first a symbol;
evaluate the second and bind it; binding `Unit` is an error. -/
def addVarToEnv : Nat → List Expr → Environment → EvalOut
  | 0, _, _ => .nofuel
  | f+1, vals, env =>
    match vals with
    | [v0, v1] =>
      match v0 with
      | .symbol s =>
        match eval f v1 env with
        | .ok (.expr e, env1) =>
          match env1.add_var s e with
          | .ok env2 => .ok (.unit, env2)
          | .error err => .ok (.err err, env1)
        | .ok (.unit, env1) =>
          .ok (.err ("cannot assign Unit to a variable."), env1)
        | .ok (.err err, env1) => .ok (.err err, env1)
        | .panic => .panic
        | .nofuel => .nofuel
      | _ =>
        .ok (.err ("Second element of variable def must be a symbol and third must be expression."), env)
    | _ =>
      .ok (.err ("Invalid variable definition. Should look like (let someVar someExpr)"), env)

/-- `if_then_else` of `src/eval.rs`: exactly three blocks; the condition is
evaluated; when it yields an expression, the selected branch (else-branch
for the empty list, then-branch otherwise) is evaluated and its result
*discarded* (the Rust statement `match {..};` drops it, errors included),
after which the then-branch is evaluated again and returned. -/
def ifThenElse : Nat → List Expr → Environment → EvalOut
  | 0, _, _ => .nofuel
  | f+1, blocks, env =>
    match blocks with
    | [b0, b1, b2] =>
      match eval f b0 env with
      | .ok (.expr e, env1) =>
        match eval f (if e = .list [] then b2 else b1) env1 with
        | .ok (_, env2) => eval f b1 env2
        | .panic => .panic
        | .nofuel => .nofuel
      | .ok (.unit, env1) =>
        .ok (.err ("If expression predicate must return an expression."), env1)
      | .ok (.err err, env1) => .ok (.err err, env1)
      | .panic => .panic
      | .nofuel => .nofuel
    | _ =>
      .ok (.err ("Must have format: if (<argument>) (<then block>) (<else block>)"), env)

/-- The generic-list arm of `eval` (the final `_ =>` match arm): evaluate
every element via `evalGeneric` and either propagate the first error
unchanged or rebuild the list from the non-`Unit` values. -/
def evalList : Nat → List Expr → Environment → EvalOut
  | 0, _, _ => .nofuel
  | f+1, vals, env =>
    match evalGeneric f vals env with
    | .ok (.error r, env1) => .ok (r, env1)
    | .ok (.ok es, env1) => .ok (.expr (.list es), env1)
    | .panic => .panic
    | .nofuel => .nofuel

/-- The lazy `map / filter Unit / collect` pipeline of the generic-list arm:
elements are evaluated left to right, `Unit` results are dropped, and the
first `Err` result aborts the remaining evaluations and is returned as the
`error` payload unchanged. -/
def evalGeneric : Nat → List Expr → Environment →
    Step ((Except EvalResult (List Expr)) × Environment)
  | 0, _, _ => .nofuel
  | _+1, [], env => .ok (.ok [], env)
  | f+1, v :: vs, env =>
    match eval f v env with
    | .ok (.unit, env1) => evalGeneric f vs env1
    | .ok (.expr e, env1) =>
      match evalGeneric f vs env1 with
      | .ok (.ok es, env2) => .ok (.ok (e :: es), env2)
      | other => other
    | .ok (.err m, env1) => .ok (.error (.err m), env1)
    | .panic => .panic
    | .nofuel => .nofuel

end

/-- Modelled from the spec: the token type of `src/lex.rs` (not under
`src/`), as used by `src/parse.rs`: `LPar`, `RPar` and `Literal(text)`. -/
inductive Token : Type where
  | lpar
  | rpar
  | literal (s : String)
deriving DecidableEq

/-- `ParseError` of `src/parse.rs`. -/
inductive ParseError : Type where
  | badParse (msg : String)
  | eof
deriving DecidableEq

/-- `ParseResult` of `src/parse.rs`: `Success(next_index, expr)` or
`Failure(err)`. -/
inductive PResult : Type where
  | success (ix : Nat) (e : Expr)
  | failure (err : ParseError)
deriving DecidableEq

/-- Numeric value of a digit string. -/
def digitsToNat (cs : List Char) : Nat :=
  cs.foldl (fun a c => a * 10 + (c.toNat - 48)) 0

/-- Modelled from the spec: `src/parse.rs` classifies a `Literal` with
Rust's `s.parse::<f64>()`, which is standard-library code.  Per the spec,
"a `Literal` that parses as a 64-bit float becomes `Number`; otherwise it
becomes `Symbol`".  This model accepts an optional sign followed by a plain
decimal (digits with an optional fractional part); the properties below
only exercise integer literals (exact in `f64`) and non-numeric symbols. -/
def parseFloat (s : String) : Option ℚ :=
  let cs := s.toList
  let neg : Bool :=
    match cs with
    | c :: _ => c = Char.ofNat 45
    | [] => false
  let cs2 : List Char :=
    match cs with
    | c :: t => if c = Char.ofNat 45 ∨ c = Char.ofNat 43 then t else cs
    | [] => cs
  let intPart := cs2.takeWhile (fun c => c.isDigit)
  let rest := cs2.drop intPart.length
  let mag : Option ℚ :=
    match rest with
    | [] => if intPart.isEmpty then none else some ((digitsToNat intPart : ℚ))
    | c :: frac =>
      if c = Char.ofNat 46 ∧ frac.all (fun d => d.isDigit)
          ∧ (¬intPart.isEmpty ∨ ¬frac.isEmpty) then
        some ((digitsToNat intPart : ℚ) + (digitsToNat frac : ℚ) / ((10 : ℚ) ^ frac.length))
      else none
  match mag with
  | some m => some (if neg then -m else m)
  | none => none

mutual

/-- `parser` of `src/parse.rs`: no token at `index` is `EOF`; `RPar` where an
expression is expected is `BadParse("Unexpected ) encountered.")`; a literal
becomes a number or symbol; `LPar` enters the sub-expression loop.  Note
that the loop variable `x` still holds the *opening* `LPar` when the loop
condition is first tested, so the loop body always runs at least once. -/
def parser : Nat → List Token → Nat → Option PResult
  | 0, _, _ => none
  | f+1, tokens, index =>
    match tokens.get? index with
    | none => some (.failure .eof)
    | some x =>
      match x with
      | .lpar => parseLoop f tokens x (index + 1) []
      | .rpar => some (.failure (.badParse ("Unexpected ) encountered.")))
      | .literal s =>
        match parseFloat s with
        | some n => some (.success (index + 1) (.fnum n))
        | none => some (.success (index + 1) (.symbol s))

/-- The `while *x != Token::RPar` loop of `parser`: parse a sub-expression,
fail with `BadParse("Unclosed delimiter")` if the advanced index has reached
the end of the tokens, reload `x` from the new index and repeat; on `RPar`
return the list with the index just past it. -/
def parseLoop : Nat → List Token → Token → Nat → List Expr → Option PResult
  | _, _, .rpar, index, acc => some (.success (index + 1) (.list acc))
  | 0, _, _, _, _ => none
  | f+1, tokens, _, index, acc =>
    match parser f tokens index with
    | some (.success ix expr) =>
      if tokens.length ≤ ix then
        some (.failure (.badParse ("Unclosed delimiter")))
      else
        parseLoop f tokens (tokens.getD ix .lpar) ix (acc ++ [expr])
    | some (.failure e) => some (.failure e)
    | none => none

end

/-- `parse` of `src/parse.rs`: run `parser` at index 0 and discard the
returned next index, keeping only the expression. -/
def parse (fuel : Nat) (tokens : List Token) : Option (Except ParseError Expr) :=
  match parser fuel tokens 0 with
  | some (.success _ e) => some (.ok e)
  | some (.failure err) => some (.error err)
  | none => none


/-! ## Theorems about the claims -/

/-- C1: for an `(if cond thenExpr elseExpr)` list of exactly three
arguments whose condition evaluates to an expression (neither `Unit` nor an
error), `eval` evaluates `cond`, then evaluates the selected branch (the
else-branch when the condition's value is the empty list, the then-branch
otherwise) for its side effects, and finally evaluates and returns the
then-branch's result, regardless of the condition's value. -/
theorem if_returns_then_branch (f : Nat) (cond t el : Expr)
    (env env1 env2 : Environment) (e : Expr) (r2 : EvalResult)
    (h1 : eval f cond env = .ok (.expr e, env1))
    (h2 : eval f (if e = .list [] then el else t) env1 = .ok (r2, env2)) :
    eval (f+1+1) (.list [.symbol ("if"), cond, t, el]) env = eval f t env2 := by
  have hstep : eval (f+1+1) (.list [.symbol ("if"), cond, t, el]) env
      = ifThenElse (f+1) [cond, t, el] env := by
    simp [eval]
  rw [hstep]
  simp only [ifThenElse, h1, h2]

/-- Witness for C1 at a concrete input: the condition `0` is a number (not
the empty list), so the then-branch `1` is selected and returned. -/
theorem if_returns_then_branch_witness :
    eval 4 (.list [.symbol ("if"), .fnum 0, .fnum 1, .fnum 2]) Environment.default
      = eval 2 (.fnum 1) Environment.default :=
  if_returns_then_branch 2 (.fnum 0) (.fnum 1) (.fnum 2)
    Environment.default Environment.default Environment.default
    (.fnum 0) (.expr (.fnum 1)) rfl rfl

/-- C2 (amended): for every special form and application, the first
sub-expression `Err` aborts evaluation of the remaining arguments of that
form and the form yields an `Err`.  The four per-element folds (numbers
for `+ - * /`, expressions for `=`/`!=`, arguments for application, the
generic-list pipeline) stop at an erroring element whatever arguments
remain, and each form turns the fold's error into its own result: the
generic-list branch, `let`, application and `if`'s condition propagate the
error message unchanged, while the arithmetic comparisons and `not`
re-wrap it.  The one exception (see the counterexample) is an error raised
while pre-evaluating the *selected branch* of `if`, which is discarded. -/
theorem fail_fast_first_error :
    (∀ (f : Nat) (msg : String) (v : Expr) (rest : List Expr)
        (env env1 : Environment) (m : String),
      eval f v env = .ok (.err m, env1) →
      evalNums msg (f+1) (v :: rest) env
        = .ok (.error ("Failed to eval expr: " ++ exprDebug v), env1)) ∧
    (∀ (f : Nat) (v : Expr) (rest : List Expr) (env env1 : Environment) (m : String),
      eval f v env = .ok (.err m, env1) →
      evalExprs (f+1) (v :: rest) env
        = .ok (.error ("Failed to eval expr: " ++ strDebug m), env1)) ∧
    (∀ (f : Nat) (v : Expr) (nm : String) (rest : List (Expr × String))
        (env env1 : Environment) (m : String),
      eval f v env = .ok (.err m, env1) →
      evalArgs (f+1) ((v, nm) :: rest) env = .ok (.error m, env1)) ∧
    (∀ (f : Nat) (v : Expr) (rest : List Expr) (env env1 : Environment) (m : String),
      eval f v env = .ok (.err m, env1) →
      evalGeneric (f+1) (v :: rest) env = .ok (.error (.err m), env1)) ∧
    (∀ (f : Nat) (vals : List Expr) (env env1 : Environment) (m : String),
      vals ≠ [] →
      evalNums ("Can only sum numbers, got ") f vals env = .ok (.error m, env1) →
      eval (f+1+1) (.list (.symbol ("+") :: vals)) env = .ok (.err m, env1)) ∧
    (∀ (f : Nat) (vals : List Expr) (env env1 : Environment) (m : String),
      vals ≠ [] →
      evalNums ("Can only subtract numers, got ") f vals env = .ok (.error m, env1) →
      eval (f+1+1) (.list (.symbol ("-") :: vals)) env = .ok (.err m, env1)) ∧
    (∀ (f : Nat) (vals : List Expr) (env env1 : Environment) (m : String),
      vals ≠ [] →
      evalNums ("Can only sum numers, got ") f vals env = .ok (.error m, env1) →
      eval (f+1+1) (.list (.symbol ("*") :: vals)) env = .ok (.err m, env1)) ∧
    (∀ (f : Nat) (vals : List Expr) (env env1 : Environment) (m : String),
      vals ≠ [] →
      evalNums ("Can only sum numers, got ") f vals env = .ok (.error m, env1) →
      eval (f+1+1) (.list (.symbol ("/") :: vals)) env = .ok (.err m, env1)) ∧
    (∀ (f : Nat) (vals : List Expr) (env env1 : Environment) (m : String),
      vals ≠ [] →
      evalExprs f vals env = .ok (.error m, env1) →
      eval (f+1+1) (.list (.symbol ("=") :: vals)) env = .ok (.err m, env1)) ∧
    (∀ (f : Nat) (vals : List Expr) (env env1 : Environment) (m : String),
      vals ≠ [] →
      evalExprs f vals env = .ok (.error m, env1) →
      eval (f+1+1) (.list (.symbol ("!=") :: vals)) env = .ok (.err m, env1)) ∧
    (∀ (f : Nat) (a : Expr) (more : List Expr) (env env1 : Environment) (m : String),
      eval f a env = .ok (.err m, env1) →
      eval (f+1+1) (.list (.symbol ("not") :: a :: more)) env
        = .ok (.err ("Failed to eval expr: " ++ strDebug m), env1)) ∧
    (∀ (f : Nat) (s : String) (v1 : Expr) (env env1 : Environment) (m : String),
      eval f v1 env = .ok (.err m, env1) →
      eval (f+1+1) (.list [.symbol ("let"), .symbol s, v1]) env
        = .ok (.err m, env1)) ∧
    (∀ (f : Nat) (cond t el : Expr) (env env1 : Environment) (m : String),
      eval f cond env = .ok (.err m, env1) →
      eval (f+1+1) (.list [.symbol ("if"), cond, t, el]) env = .ok (.err m, env1)) ∧
    (∀ (f : Nat) (vals : List Expr) (env env1 : Environment) (r : EvalResult),
      evalGeneric f vals env = .ok (.error r, env1) →
      evalList (f+1) vals env = .ok (r, env1)) ∧
    (∀ (f : Nat) (ex : Expr) (sym : String) (args : List Expr)
        (env env1 : Environment) (m : String) (params : List String) (body : Expr),
      env.lookup sym = some (params, body) →
      params ≠ [] →
      args.length = params.length →
      evalArgs f (args.zip params) env = .ok (.error m, env1) →
      evalSymbol (f+1) ex sym args env
        = .ok (.err m, (env1.push_context).pop_context)) := by
  refine ⟨?_, ?_, ?_, ?_, ?_, ?_, ?_, ?_, ?_, ?_, ?_, ?_, ?_, ?_, ?_⟩
  · intro f msg v rest env env1 m h
    simp only [evalNums, h]
  · intro f v rest env env1 m h
    simp only [evalExprs, h]
  · intro f v nm rest env env1 m h
    simp only [evalArgs, h]
  · intro f v rest env env1 m h
    simp only [evalGeneric, h]
  · intro f vals env env1 m hne hnum
    have hstep : eval (f+1+1) (.list (.symbol ("+") :: vals)) env
        = addVals (f+1) vals env := by
      simp [eval]
    rw [hstep]
    simp only [addVals]
    rw [if_neg hne]
    simp only [hnum]
  · intro f vals env env1 m hne hnum
    have hstep : eval (f+1+1) (.list (.symbol ("-") :: vals)) env
        = subVals (f+1) vals env := by
      simp [eval]
    rw [hstep]
    simp only [subVals]
    rw [if_neg hne]
    simp only [hnum]
  · intro f vals env env1 m hne hnum
    have hstep : eval (f+1+1) (.list (.symbol ("*") :: vals)) env
        = mulVals (f+1) vals env := by
      simp [eval]
    rw [hstep]
    simp only [mulVals]
    rw [if_neg hne]
    simp only [hnum]
  · intro f vals env env1 m hne hnum
    have hstep : eval (f+1+1) (.list (.symbol ("/") :: vals)) env
        = divVals (f+1) vals env := by
      simp [eval]
    rw [hstep]
    simp only [divVals]
    rw [if_neg hne]
    simp only [hnum]
  · intro f vals env env1 m hne hexp
    have hstep : eval (f+1+1) (.list (.symbol ("=") :: vals)) env
        = equality (f+1) vals env := by
      simp [eval]
    rw [hstep]
    simp only [equality]
    rw [if_neg hne]
    simp only [hexp]
  · intro f vals env env1 m hne hexp
    have hstep : eval (f+1+1) (.list (.symbol ("!=") :: vals)) env
        = inequality (f+1) vals env := by
      simp [eval]
    rw [hstep]
    simp only [inequality]
    rw [if_neg hne]
    simp only [hexp]
  · intro f a more env env1 m h
    have hstep : eval (f+1+1) (.list (.symbol ("not") :: a :: more)) env
        = notOp (f+1) a env := by
      simp [eval]
    rw [hstep]
    simp only [notOp, h]
  · intro f s v1 env env1 m h
    have hstep : eval (f+1+1) (.list [.symbol ("let"), .symbol s, v1]) env
        = addVarToEnv (f+1) [.symbol s, v1] env := by
      simp [eval]
    rw [hstep]
    simp only [addVarToEnv, h]
  · intro f cond t el env env1 m h
    have hstep : eval (f+1+1) (.list [.symbol ("if"), cond, t, el]) env
        = ifThenElse (f+1) [cond, t, el] env := by
      simp [eval]
    rw [hstep]
    simp only [ifThenElse, h]
  · intro f vals env env1 r h
    simp only [evalList, h]
  · intro f ex sym args env env1 m params body hl hp hlen ha
    simp only [evalSymbol, hl]
    rw [if_neg (by simpa using hp)]
    rw [if_neg (fun hc => hc hlen)]
    simp only [ha]

/-- Witness for C2: `(+)` evaluates to an arity error; a generic list
containing it as an element aborts with exactly that error, the `+` form
whose first argument is `(+)` yields the re-wrapped error, and calling a
one-parameter function `g` on the erroring argument `(+)` returns the
argument's error with the pushed frame popped. -/
theorem fail_fast_first_error_witness :
    evalGeneric 3 [.list [.symbol ("+")], .fnum 5] Environment.default
      = .ok (.error (.err ("Must perform addition on at least one number")),
          Environment.default)
    ∧ eval 5 (.list [.symbol ("+"), .list [.symbol ("+")], .fnum 5]) Environment.default
      = .ok (.err ("Failed to eval expr: " ++ exprDebug (.list [.symbol ("+")])),
          Environment.default)
    ∧ evalSymbol 4 (.symbol ("g")) ("g") [.list [.symbol ("+")]]
        (⟨[[(("g"), (["x"], Expr.symbol ("x")))]]⟩ : Environment)
      = .ok (.err ("Must perform addition on at least one number"),
          (((⟨[[(("g"), (["x"], Expr.symbol ("x")))]]⟩ : Environment)).push_context).pop_context) :=
  ⟨fail_fast_first_error.2.2.2.1 2 (.list [.symbol ("+")]) [.fnum 5]
      Environment.default Environment.default
      ("Must perform addition on at least one number") rfl,
    fail_fast_first_error.2.2.2.2.1 3 [.list [.symbol ("+")], .fnum 5]
      Environment.default Environment.default
      ("Failed to eval expr: " ++ exprDebug (.list [.symbol ("+")]))
      (by simp) rfl,
    fail_fast_first_error.2.2.2.2.2.2.2.2.2.2.2.2.2.2 3 (.symbol ("g")) ("g")
      [.list [.symbol ("+")]]
      (⟨[[(("g"), (["x"], Expr.symbol ("x")))]]⟩ : Environment)
      (⟨[[(("g"), (["x"], Expr.symbol ("x")))]]⟩ : Environment)
      ("Must perform addition on at least one number")
      (["x"]) (Expr.symbol ("x")) rfl (by simp) rfl rfl⟩

/-- Counterexample for C2 as stated: the else-branch `(+)` of this `if`
evaluates to an error (the condition `False` is the empty list, selecting
the else-branch), yet the error is discarded and the form evaluates to the
then-branch's value `1` instead of propagating the error. -/
theorem if_discards_selected_branch_error :
    eval 10 (.list [.symbol ("if"), .symbol ("False"), .fnum 1, .list [.symbol ("+")]])
      Environment.default = .ok (.expr (.fnum 1), Environment.default) := by
  rfl

/-- C3: the `vals.len() != 3` check of `add_fn_to_env` constructs its arity
error but lacks a `return`, so the error is discarded: a `fn` form with four
arguments (not exactly 3) still registers the function and yields `Unit`
instead of an error, and a `fn` form with one argument panics on the
`vals[1]` index instead of returning an error. -/
theorem fn_arity_check_ineffective :
    eval 10 (.list [.symbol ("fn"), .symbol ("f"), .list [.symbol ("x")],
        .symbol ("x"), .fnum 7]) Environment.default
      = .ok (.unit, ⟨[[(("False"), ([], .list [])), (("True"), ([], .list [.fnum 1])),
          (("f"), (["x"], .symbol ("x")))]]⟩)
    ∧ eval 10 (.list [.symbol ("fn"), .symbol ("f")]) Environment.default = .panic :=
  ⟨rfl, rfl⟩

/-- C4: parsing the two-token sequence `( )` does not produce the empty
list: because the loop variable `x` still holds the opening `LPar` when the
loop condition is first tested, the body recurses into the `)` and fails
with `BadParse("Unexpected ) encountered.")`, contradicting the grammar
`expr := NUMBER | SYMBOL | '(' expr* ')'`. -/
theorem empty_list_fails_to_parse :
    parse 10 [Token.lpar, Token.rpar]
      = some (.error (.badParse ("Unexpected ) encountered.")))
    ∧ parser 10 [Token.lpar, Token.rpar] 0
      = some (.failure (.badParse ("Unexpected ) encountered."))) :=
  ⟨rfl, rfl⟩

/-- C10: `(and)` with no arguments yields the symbol `True` and `(or)` with
no arguments yields the symbol `False` (neither is an error), and for every
`and`/`or` form the handler computes its answer from the raw argument
expressions alone, performing no evaluation and leaving the environment
unchanged. -/
theorem and_or_handlers_pure :
    (∀ (f : Nat) (args : List Expr) (env : Environment),
      eval (f+1) (.list (.symbol ("and") :: args)) env = .ok (boolAnd args, env)) ∧
    (∀ (f : Nat) (args : List Expr) (env : Environment),
      eval (f+1) (.list (.symbol ("or") :: args)) env = .ok (boolOr args, env)) ∧
    boolAnd [] = .expr (.symbol ("True")) ∧
    boolOr [] = .expr (.symbol ("False")) := by
  refine ⟨?_, ?_, rfl, rfl⟩
  · intro f args env
    simp [eval]
  · intro f args env
    simp [eval]

/-- C7 (amended): `not` evaluates its single argument; when the argument is
the literal symbol `True` the result is the symbol `False`, when it is the
literal symbol `False` the result is the symbol `True`, and when it is a
*non-empty* list the result is the structural-equality verdict over that
list's own (raw) elements: the symbol `True` iff every element equals the
first.  (On the empty list the code panics instead, see the
counterexample.) -/
theorem not_operator_behavior :
    (∀ (f : Nat) (env env1 : Environment) (e1 : Expr),
      eval f (.symbol ("True")) env = .ok (.expr e1, env1) →
      eval (f+1+1) (.list [.symbol ("not"), .symbol ("True")]) env
        = .ok (.expr (.symbol ("False")), env1)) ∧
    (∀ (f : Nat) (env env1 : Environment) (e1 : Expr),
      eval f (.symbol ("False")) env = .ok (.expr e1, env1) →
      eval (f+1+1) (.list [.symbol ("not"), .symbol ("False")]) env
        = .ok (.expr (.symbol ("True")), env1)) ∧
    (∀ (f : Nat) (env env1 : Environment) (e1 x : Expr) (xs : List Expr),
      eval f (.list (x :: xs)) env = .ok (.expr e1, env1) →
      eval (f+1+1) (.list [.symbol ("not"), .list (x :: xs)]) env
        = .ok (.expr (.symbol (if xs.all (fun y => y = x) then "True" else "False")),
            env1)) := by
  refine ⟨?_, ?_, ?_⟩
  · intro f env env1 e1 h
    have hstep : eval (f+1+1) (.list [.symbol ("not"), .symbol ("True")]) env
        = notOp (f+1) (.symbol ("True")) env := by
      simp [eval]
    rw [hstep]
    simp only [notOp, h]
    simp
  · intro f env env1 e1 h
    have hstep : eval (f+1+1) (.list [.symbol ("not"), .symbol ("False")]) env
        = notOp (f+1) (.symbol ("False")) env := by
      simp [eval]
    rw [hstep]
    simp only [notOp, h]
    simp
  · intro f env env1 e1 x xs h
    have hstep : eval (f+1+1) (.list [.symbol ("not"), .list (x :: xs)]) env
        = notOp (f+1) (.list (x :: xs)) env := by
      simp [eval]
    rw [hstep]
    simp only [notOp, h, isEqualList]

/-- Witness for C7: in the default environment `True` evaluates to the list
`[1]`, and `(not True)` yields the symbol `False`; likewise `(not (1 1))`
compares the raw elements of the non-empty list `(1 1)` and yields `True`. -/
theorem not_operator_behavior_witness :
    eval 8 (.list [.symbol ("not"), .symbol ("True")]) Environment.default
      = .ok (.expr (.symbol ("False")), Environment.default)
    ∧ eval 8 (.list [.symbol ("not"), .list [.fnum 1, .fnum 1]]) Environment.default
      = .ok (.expr (.symbol ("True")), Environment.default) :=
  ⟨not_operator_behavior.1 6 Environment.default Environment.default
      (.list [.fnum 1]) rfl,
    not_operator_behavior.2.2 6 Environment.default Environment.default
      (.list [.fnum 1, .fnum 1]) (.fnum 1) [.fnum 1] rfl⟩

/-- Counterexample for C7 as stated: applying `not` to the empty list does
not produce an equality verdict at all: `is_equal_list` indexes `vals[0]`
of an empty vector and the interpreter panics. -/
theorem not_empty_list_panics :
    eval 10 (.list [.symbol ("not"), .list []]) Environment.default = .panic := by
  rfl

/-- Evaluating a list of numeric literals with the arithmetic fold yields
exactly those numbers and leaves the environment unchanged. -/
theorem evalNumsLits (msg : String) : ∀ (xs : List ℚ) (f : Nat) (env : Environment),
    evalNums msg (f + xs.length + 1) (xs.map Expr.fnum) env = .ok (.ok xs, env) := by
  intro xs
  induction xs with
  | nil =>
    intro f env
    rfl
  | cons x xs ih =>
    intro f env
    show evalNums msg ((f + xs.length + 1) + 1) (.fnum x :: xs.map Expr.fnum) env
        = .ok (.ok (x :: xs), env)
    simp only [evalNums, eval]
    rw [ih]

theorem addValsLits (f : Nat) (n : ℚ) (ns : List ℚ) (env : Environment) :
    addVals (f + (n :: ns).length + 2) ((n :: ns).map Expr.fnum) env
      = .ok (.expr (.fnum ((n :: ns).foldl (· + ·) 0)), env) := by
  show addVals ((f + (n :: ns).length + 1) + 1) ((n :: ns).map Expr.fnum) env = _
  simp only [addVals]
  rw [if_neg (by simp)]
  rw [evalNumsLits]

theorem subValsLits (f : Nat) (n : ℚ) (ns : List ℚ) (env : Environment) :
    subVals (f + (n :: ns).length + 2) ((n :: ns).map Expr.fnum) env
      = .ok (.expr (.fnum (ns.foldl (· - ·) n)), env) := by
  show subVals ((f + (n :: ns).length + 1) + 1) ((n :: ns).map Expr.fnum) env = _
  simp only [subVals]
  rw [if_neg (by simp)]
  rw [evalNumsLits]
  simp [subtract]

theorem mulValsLits (f : Nat) (n : ℚ) (ns : List ℚ) (env : Environment) :
    mulVals (f + (n :: ns).length + 2) ((n :: ns).map Expr.fnum) env
      = .ok (.expr (.fnum ((n :: ns).foldl (· * ·) 1)), env) := by
  show mulVals ((f + (n :: ns).length + 1) + 1) ((n :: ns).map Expr.fnum) env = _
  simp only [mulVals]
  rw [if_neg (by simp)]
  rw [evalNumsLits]

theorem divValsLits (f : Nat) (n : ℚ) (ns : List ℚ) (env : Environment) :
    divVals (f + (n :: ns).length + 2) ((n :: ns).map Expr.fnum) env
      = .ok (.expr (.fnum (ns.foldl (· / ·) n)), env) := by
  show divVals ((f + (n :: ns).length + 1) + 1) ((n :: ns).map Expr.fnum) env = _
  simp only [divVals]
  rw [if_neg (by simp)]
  rw [evalNumsLits]
  simp [divide]

theorem evalAddLits (f : Nat) (n : ℚ) (ns : List ℚ) (env : Environment) :
    eval (f + (n :: ns).length + 3) (.list (.symbol ("+") :: (n :: ns).map Expr.fnum)) env
      = .ok (.expr (.fnum ((n :: ns).foldl (· + ·) 0)), env) := by
  show eval ((f + (n :: ns).length + 2) + 1) _ _ = _
  have hstep : eval ((f + (n :: ns).length + 2) + 1)
      (.list (.symbol ("+") :: (n :: ns).map Expr.fnum)) env
      = addVals (f + (n :: ns).length + 2) ((n :: ns).map Expr.fnum) env := by
    simp [eval]
  rw [hstep, addValsLits]

theorem evalSubLits (f : Nat) (n : ℚ) (ns : List ℚ) (env : Environment) :
    eval (f + (n :: ns).length + 3) (.list (.symbol ("-") :: (n :: ns).map Expr.fnum)) env
      = .ok (.expr (.fnum (ns.foldl (· - ·) n)), env) := by
  show eval ((f + (n :: ns).length + 2) + 1) _ _ = _
  have hstep : eval ((f + (n :: ns).length + 2) + 1)
      (.list (.symbol ("-") :: (n :: ns).map Expr.fnum)) env
      = subVals (f + (n :: ns).length + 2) ((n :: ns).map Expr.fnum) env := by
    simp [eval]
  rw [hstep, subValsLits]

theorem evalMulLits (f : Nat) (n : ℚ) (ns : List ℚ) (env : Environment) :
    eval (f + (n :: ns).length + 3) (.list (.symbol ("*") :: (n :: ns).map Expr.fnum)) env
      = .ok (.expr (.fnum ((n :: ns).foldl (· * ·) 1)), env) := by
  show eval ((f + (n :: ns).length + 2) + 1) _ _ = _
  have hstep : eval ((f + (n :: ns).length + 2) + 1)
      (.list (.symbol ("*") :: (n :: ns).map Expr.fnum)) env
      = mulVals (f + (n :: ns).length + 2) ((n :: ns).map Expr.fnum) env := by
    simp [eval]
  rw [hstep, mulValsLits]

theorem evalDivLits (f : Nat) (n : ℚ) (ns : List ℚ) (env : Environment) :
    eval (f + (n :: ns).length + 3) (.list (.symbol ("/") :: (n :: ns).map Expr.fnum)) env
      = .ok (.expr (.fnum (ns.foldl (· / ·) n)), env) := by
  show eval ((f + (n :: ns).length + 2) + 1) _ _ = _
  have hstep : eval ((f + (n :: ns).length + 2) + 1)
      (.list (.symbol ("/") :: (n :: ns).map Expr.fnum)) env
      = divVals (f + (n :: ns).length + 2) ((n :: ns).map Expr.fnum) env := by
    simp [eval]
  rw [hstep, divValsLits]

/-- C8: `(+)` and `(*)` with no arguments yield an `Err`; with at least one
numeric argument, `+` and `*` fold up the sum and product; `-` and `/`
subtract (resp. divide) the first number by each subsequent number in
order, so a single argument is returned unchanged; and concretely
`(+ 1 2 3) = 6`, `(* 2 3 4) = 24`, `(- 5) = 5`, `(- 5 2 1) = 2`,
`(/ 8 2 2) = 2`. -/
theorem arithmetic_operators :
    (∀ (f : Nat) (env : Environment),
      eval (f+1+1) (.list [.symbol ("+")]) env
        = .ok (.err ("Must perform addition on at least one number"), env)) ∧
    (∀ (f : Nat) (env : Environment),
      eval (f+1+1) (.list [.symbol ("*")]) env
        = .ok (.err ("Must perform multiplication on at least one number"), env)) ∧
    (∀ (f : Nat) (n : ℚ) (ns : List ℚ) (env : Environment),
      eval (f + (n :: ns).length + 3)
          (.list (.symbol ("+") :: (n :: ns).map Expr.fnum)) env
        = .ok (.expr (.fnum ((n :: ns).foldl (· + ·) 0)), env)) ∧
    (∀ (f : Nat) (n : ℚ) (ns : List ℚ) (env : Environment),
      eval (f + (n :: ns).length + 3)
          (.list (.symbol ("*") :: (n :: ns).map Expr.fnum)) env
        = .ok (.expr (.fnum ((n :: ns).foldl (· * ·) 1)), env)) ∧
    (∀ (f : Nat) (n : ℚ) (ns : List ℚ) (env : Environment),
      eval (f + (n :: ns).length + 3)
          (.list (.symbol ("-") :: (n :: ns).map Expr.fnum)) env
        = .ok (.expr (.fnum (ns.foldl (· - ·) n)), env)) ∧
    (∀ (f : Nat) (n : ℚ) (ns : List ℚ) (env : Environment),
      eval (f + (n :: ns).length + 3)
          (.list (.symbol ("/") :: (n :: ns).map Expr.fnum)) env
        = .ok (.expr (.fnum (ns.foldl (· / ·) n)), env)) ∧
    eval 10 (.list [.symbol ("+"), .fnum 1, .fnum 2, .fnum 3]) Environment.default
      = .ok (.expr (.fnum 6), Environment.default) ∧
    eval 10 (.list [.symbol ("*"), .fnum 2, .fnum 3, .fnum 4]) Environment.default
      = .ok (.expr (.fnum 24), Environment.default) ∧
    eval 10 (.list [.symbol ("-"), .fnum 5]) Environment.default
      = .ok (.expr (.fnum 5), Environment.default) ∧
    eval 10 (.list [.symbol ("-"), .fnum 5, .fnum 2, .fnum 1]) Environment.default
      = .ok (.expr (.fnum 2), Environment.default) ∧
    eval 10 (.list [.symbol ("/"), .fnum 8, .fnum 2, .fnum 2]) Environment.default
      = .ok (.expr (.fnum 2), Environment.default) := by
  refine ⟨?_, ?_, ?_, ?_, ?_, ?_, ?_, ?_, ?_, ?_, ?_⟩
  · intro f env
    simp [eval, addVals]
  · intro f env
    simp [eval, mulVals]
  · exact fun f n ns env => evalAddLits f n ns env
  · exact fun f n ns env => evalMulLits f n ns env
  · exact fun f n ns env => evalSubLits f n ns env
  · exact fun f n ns env => evalDivLits f n ns env
  · have h := evalAddLits 4 1 [2, 3] Environment.default
    have e : (((1 : ℚ) :: [2, 3]).foldl (· + ·) 0) = (6 : ℚ) := by
      norm_num [List.foldl]
    rw [e] at h
    exact h
  · have h := evalMulLits 4 2 [3, 4] Environment.default
    have e : (((2 : ℚ) :: [3, 4]).foldl (· * ·) 1) = (24 : ℚ) := by
      norm_num [List.foldl]
    rw [e] at h
    exact h
  · exact evalSubLits 6 5 [] Environment.default
  · have h := evalSubLits 4 5 [2, 1] Environment.default
    have e : (([2, 1] : List ℚ).foldl (· - ·) 5) = (2 : ℚ) := by
      norm_num [List.foldl]
    rw [e] at h
    exact h
  · have h := evalDivLits 4 8 [2, 2] Environment.default
    have e : (([2, 2] : List ℚ).foldl (· / ·) 8) = (2 : ℚ) := by
      norm_num [List.foldl]
    rw [e] at h
    exact h

/-- On a successful parse the returned index is within the tokens consumed,
and appending extra tokens does not change the result: the parser never
reads past the expression it returns. -/
theorem parser_append_stable : ∀ (f : Nat),
    (∀ (tokens : List Token) (j i : Nat) (e : Expr) (extra : List Token),
      parser f tokens j = some (.success i e) →
      i ≤ tokens.length ∧ parser f (tokens ++ extra) j = some (.success i e)) ∧
    (∀ (tokens : List Token) (x : Token) (j : Nat) (acc : List Expr) (i : Nat) (e : Expr)
        (extra : List Token),
      (x = Token.rpar → j < tokens.length) →
      parseLoop f tokens x j acc = some (.success i e) →
      i ≤ tokens.length ∧ parseLoop f (tokens ++ extra) x j acc = some (.success i e)) := by
  intro f
  induction f with
  | zero =>
    constructor
    · intro tokens j i e extra h
      exact absurd h (by simp [parser])
    · intro tokens x j acc i e extra hx h
      rcases x with _ | _ | s
      · exact absurd h (by simp [parseLoop])
      · simp only [parseLoop, Option.some.injEq] at h
        cases h
        refine ⟨by have := hx rfl; omega, ?_⟩
        simp only [parseLoop]
      · exact absurd h (by simp [parseLoop])
  | succ f ih =>
    obtain ⟨ih1, ih2⟩ := ih
    constructor
    · intro tokens j i e extra h
      cases hg : tokens.get? j with
      | none =>
        simp only [parser, hg] at h
        exact nomatch h
      | some x =>
        have hj : j < tokens.length := by
          by_contra hc
          rw [List.get?_eq_none.mpr (by omega)] at hg
          exact nomatch hg
        have hg2 : (tokens ++ extra).get? j = some x := by
          rw [List.get?_append hj]
          exact hg
        rcases x with _ | _ | s
        · simp only [parser, hg] at h
          obtain ⟨hb, hap⟩ := ih2 tokens .lpar (j+1) [] i e extra (fun hc => nomatch hc) h
          refine ⟨hb, ?_⟩
          simp only [parser, hg2]
          exact hap
        · simp only [parser, hg] at h
          exact nomatch h
        · cases hpf : parseFloat s with
          | none =>
            simp only [parser, hg, hpf, Option.some.injEq] at h
            cases h
            refine ⟨by omega, ?_⟩
            simp only [parser, hg2, hpf]
          | some n =>
            simp only [parser, hg, hpf, Option.some.injEq] at h
            cases h
            refine ⟨by omega, ?_⟩
            simp only [parser, hg2, hpf]
    · intro tokens x j acc i e extra hx h
      rcases x with _ | _ | s
      case rpar =>
        simp only [parseLoop, Option.some.injEq] at h
        cases h
        refine ⟨by have := hx rfl; omega, ?_⟩
        simp only [parseLoop]
      all_goals {
        simp only [parseLoop] at h
        split at h
        · rename_i ix e2 hp
          obtain ⟨hbix, hapix⟩ := ih1 tokens j ix e2 extra hp
          split at h
          · exact nomatch h
          · rename_i hlen
            obtain ⟨hb2, hap2⟩ := ih2 tokens (tokens.getD ix .lpar) ix (acc ++ [e2])
              i e extra (fun _ => by omega) h
            refine ⟨hb2, ?_⟩
            simp only [parseLoop, hapix]
            rw [if_neg (by simp only [List.length_append]; omega)]
            rw [show (tokens ++ extra).getD ix .lpar = tokens.getD ix .lpar from by
              rw [List.getD_eq_getD_get?, List.getD_eq_getD_get?,
                List.get?_append (by omega)]]
            exact hap2
        · rename_i e2 hp
          exact nomatch h
        · exact nomatch h
      }

/-- C5: `parse` keeps only the expression of the first successful
`parser` run at index 0, silently discarding any trailing tokens: whenever
the tokens begin with a complete expression, `parse` returns exactly that
expression, both on the original token stream and with arbitrary trailing
tokens appended, with no error for the unconsumed suffix. -/
theorem parse_returns_first_expression (f : Nat) (tokens extra : List Token)
    (i : Nat) (e : Expr) (h : parser f tokens 0 = some (.success i e)) :
    parse f tokens = some (.ok e) ∧ parse f (tokens ++ extra) = some (.ok e) := by
  have h2 := (parser_append_stable f).1 tokens 0 i e extra h
  constructor
  · simp [parse, h]
  · simp [parse, h2.2]

/-- Witness for C5: the token stream of the two adjacent top-level forms
`a b` parses to just the first symbol `a`, with no error. -/
theorem parse_returns_first_expression_witness :
    parse 2 [Token.literal ("a")] = some (.ok (.symbol ("a")))
    ∧ parse 2 [Token.literal ("a"), Token.literal ("b")] = some (.ok (.symbol ("a"))) :=
  parse_returns_first_expression 2 [Token.literal ("a")] [Token.literal ("b")] 1
    (.symbol ("a")) rfl

/-- Inside an open list whose remaining tokens are all literals, the loop
ends with `EOF` exactly when it is already positioned past the last token
(the recursive `parser` call finds no token), and with
`BadParse("Unclosed delimiter")` otherwise. -/
theorem parseLoop_lits : ∀ (f : Nat) (lits : List Token) (x : Token) (j : Nat)
      (acc : List Expr) (r : PResult),
    (∀ t ∈ lits, ∃ s, t = Token.literal s) →
    x ≠ Token.rpar → 1 ≤ j → j ≤ lits.length + 1 →
    parseLoop f (Token.lpar :: lits) x j acc = some r →
    r = .failure (if j = lits.length + 1 then .eof
        else .badParse ("Unclosed delimiter")) := by
  intro f
  induction f with
  | zero =>
    intro lits x j acc r hall hx h1 h2 h
    rcases x with _ | _ | s
    · exact absurd h (by simp [parseLoop])
    · exact absurd rfl hx
    · exact absurd h (by simp [parseLoop])
  | succ f ih =>
    intro lits x j acc r hall hx h1 h2 h
    have hxcase : x = Token.lpar ∨ (∃ s, x = Token.literal s) := by
      rcases x with _ | _ | s
      · exact Or.inl rfl
      · exact absurd rfl hx
      · exact Or.inr ⟨s, rfl⟩
    have hloop : parseLoop (f+1) (Token.lpar :: lits) x j acc
        = (match parser f (Token.lpar :: lits) j with
          | some (.success ix expr) =>
            if (Token.lpar :: lits).length ≤ ix then
              some (.failure (.badParse ("Unclosed delimiter")))
            else
              parseLoop f (Token.lpar :: lits)
                ((Token.lpar :: lits).getD ix .lpar) ix (acc ++ [expr])
          | some (.failure e) => some (.failure e)
          | none => none) := by
      rcases hxcase with hl | ⟨s, hl⟩ <;> rw [hl] <;> simp only [parseLoop]
    rw [hloop] at h
    by_cases hend : j = lits.length + 1
    · have hg : (Token.lpar :: lits).get? j = none := by
        apply List.get?_eq_none.mpr
        simp [hend]
      cases f with
      | zero =>
        simp only [parser] at h
        exact nomatch h
      | succ g =>
        simp only [parser, hg] at h
        cases h
        simp [hend]
    · obtain ⟨j2, rfl⟩ : ∃ j2, j = j2 + 1 := ⟨j - 1, by omega⟩
      have hj2 : j2 < lits.length := by omega
      have hmem : lits.getD j2 Token.lpar ∈ lits := by
        rw [List.getD_eq_getElem lits _ hj2]
        exact List.getElem_mem hj2
      obtain ⟨s, hs⟩ := hall _ hmem
      have hg : (Token.lpar :: lits).get? (j2+1) = some (Token.literal s) := by
        have hq : lits.get? j2 = some (lits.getD j2 Token.lpar) := by
          rw [List.getD_eq_getElem lits _ hj2]
          rw [List.get?_eq_getElem?]
          exact List.getElem?_eq_getElem hj2
        simp only [List.get?_cons_succ]
        rw [hq, hs]
      cases f with
      | zero =>
        simp only [parser] at h
        exact nomatch h
      | succ g =>
        have hps : ∃ e2, parser (g+1) (Token.lpar :: lits) (j2+1)
            = some (.success (j2+1+1) e2) := by
          cases hpf : parseFloat s with
          | some n => exact ⟨.fnum n, by simp only [parser, hg, hpf]⟩
          | none => exact ⟨.symbol s, by simp only [parser, hg, hpf]⟩
        obtain ⟨e2, hps⟩ := hps
        simp only [hps] at h
        split at h
        · rename_i hlen
          cases h
          simp only [List.length_cons] at hlen
          rw [if_neg (by omega)]
        · rename_i hlen
          simp only [List.length_cons] at hlen
          have hx2 : (Token.lpar :: lits).getD (j2+1+1) Token.lpar ≠ Token.rpar := by
            have hmem2 : lits.getD (j2+1) Token.lpar ∈ lits := by
              rw [List.getD_eq_getElem lits _ (by omega : j2 + 1 < lits.length)]
              exact List.getElem_mem (by omega)
            obtain ⟨s2, hs2⟩ := hall _ hmem2
            simp only [List.getD_cons_succ]
            rw [hs2]
            exact fun hc => nomatch hc
          have hrec := ih lits ((Token.lpar :: lits).getD (j2+1+1) Token.lpar)
            (j2+1+1) (acc ++ [e2]) r hall hx2 (by omega) (by omega) h
          rw [hrec]
          rw [if_neg (by omega), if_neg (by omega)]

/-- C6 (amended): inside an open list (any token sequence, any position,
any accumulated elements — the loop variable `x` is not yet the closing
`RPar`), running out of tokens *just after a complete sub-expression*
fails with `BadParse("Unclosed delimiter")`; when instead the recursive
sub-expression parse itself fails — in particular with `EOF` because its
position is past the end of the tokens, as for the single-token sequence
`LeftParen` — that failure propagates unchanged as the list's result.
`parser` at a position with no token available returns `EOF` (not only
when there are no tokens at all), and an open paren hands control to the
loop at the next position, connecting the two loop-level facts to whole
inputs, nested parentheses included. -/
theorem parser_unclosed_or_eof :
    (∀ (f : Nat) (tokens : List Token) (x : Token) (j : Nat) (acc : List Expr)
        (ix : Nat) (e : Expr),
      x ≠ Token.rpar →
      parser f tokens j = some (.success ix e) →
      tokens.length ≤ ix →
      parseLoop (f+1) tokens x j acc
        = some (.failure (.badParse ("Unclosed delimiter")))) ∧
    (∀ (f : Nat) (tokens : List Token) (x : Token) (j : Nat) (acc : List Expr)
        (er : ParseError),
      x ≠ Token.rpar →
      parser f tokens j = some (.failure er) →
      parseLoop (f+1) tokens x j acc = some (.failure er)) ∧
    (∀ (f : Nat) (tokens : List Token) (j : Nat),
      tokens.length ≤ j → parser (f+1) tokens j = some (.failure .eof)) ∧
    (∀ (f : Nat) (tokens : List Token) (j : Nat),
      tokens.get? j = some Token.lpar →
      parser (f+1) tokens j = parseLoop f tokens Token.lpar (j+1) []) := by
  refine ⟨?_, ?_, ?_, ?_⟩
  · intro f tokens x j acc ix e hx hp hlen
    rcases x with _ | _ | s
    · simp only [parseLoop, hp]
      rw [if_pos hlen]
    · exact absurd rfl hx
    · simp only [parseLoop, hp]
      rw [if_pos hlen]
  · intro f tokens x j acc er hx hp
    rcases x with _ | _ | s
    · simp only [parseLoop, hp]
    · exact absurd rfl hx
    · simp only [parseLoop, hp]
  · intro f tokens j hj
    simp only [parser, List.get?_eq_none.mpr hj]
  · intro f tokens j hg
    simp only [parser, hg]

/-- Witness for C6, exercising all four parts on the nested-parenthesis
input `( ( a` and on `(`: the inner loop of `( ( a` ends just after the
complete sub-expression `a` and fails with `Unclosed delimiter`; the loop
of the lone `(` propagates the recursive EOF failure; `parser` past the
end of the tokens fails with `EOF`; and the open paren of `( ( a` at
position 1 hands control to the loop at position 2. -/
theorem parser_unclosed_or_eof_witness :
    parseLoop 9 [Token.lpar, Token.lpar, Token.literal ("a")] Token.lpar 2 []
      = some (.failure (.badParse ("Unclosed delimiter")))
    ∧ parseLoop 9 [Token.lpar] Token.lpar 1 [] = some (.failure .eof)
    ∧ parser 8 [Token.lpar, Token.lpar] 2 = some (.failure .eof)
    ∧ parser 9 [Token.lpar, Token.lpar, Token.literal ("a")] 1
      = parseLoop 8 [Token.lpar, Token.lpar, Token.literal ("a")] Token.lpar 2 [] :=
  ⟨parser_unclosed_or_eof.1 8 [Token.lpar, Token.lpar, Token.literal ("a")]
      Token.lpar 2 [] 3 (.symbol ("a")) (fun hc => nomatch hc) rfl (by simp),
    parser_unclosed_or_eof.2.1 8 [Token.lpar] Token.lpar 1 [] .eof
      (fun hc => nomatch hc) rfl,
    parser_unclosed_or_eof.2.2.1 7 [Token.lpar, Token.lpar] 2 (by simp),
    parser_unclosed_or_eof.2.2.2 8 [Token.lpar, Token.lpar, Token.literal ("a")] 1 rfl⟩

/-- Counterexample for C6 as stated: the single-token sequence `(` fails
with `EOF` (propagated from the recursive call that found no token), not
with `BadParse("Unclosed delimiter")`; in particular `EOF` can be returned
even though a token is present at the requested position 0. -/
theorem lone_lpar_gives_eof :
    parser 10 [Token.lpar] 0 = some (.failure .eof)
    ∧ parser 10 [Token.lpar] 0
        ≠ some (.failure (.badParse ("Unclosed delimiter"))) := by
  constructor
  · rfl
  · intro hc
    exact nomatch hc.symm.trans (rfl : parser 10 [Token.lpar] 0 = some (.failure .eof))

theorem add_var_discard_length (env : Environment) (n : String) (v : Expr) :
    (env.add_var_discard n v).contexts.length = env.contexts.length := by
  rcases env with ⟨ctxs⟩
  cases ctxs <;> rfl

theorem foldl_add_var_discard_length :
    ∀ (l : List (String × Expr)) (env : Environment),
    (l.foldl (fun acc nv => acc.add_var_discard nv.1 nv.2) env).contexts.length
      = env.contexts.length := by
  intro l
  induction l with
  | nil => intro env; rfl
  | cons p ps ih =>
    intro env
    rw [List.foldl_cons, ih, add_var_discard_length]

theorem add_var_ok_length (env env2 : Environment) (n : String) (v : Expr)
    (h : env.add_var n v = .ok env2) : env2.contexts.length = env.contexts.length := by
  rcases env with ⟨ctxs⟩
  cases ctxs with
  | nil => exact nomatch h
  | cons c cs =>
    cases h
    rfl

theorem add_fn_ok_length (env env2 : Environment) (n : String) (ps : List String)
    (b : Expr) (h : env.add_fn n ps b = .ok env2) :
    env2.contexts.length = env.contexts.length := by
  rcases env with ⟨ctxs⟩
  cases ctxs with
  | nil => exact nomatch h
  | cons c cs =>
    cases h
    rfl

theorem addFnToEnv_length (vals : List Expr) (env : Environment) (r : EvalResult)
    (env2 : Environment) (h : addFnToEnv vals env = .ok (r, env2)) :
    env2.contexts.length = env.contexts.length := by
  simp only [addFnToEnv] at h
  split at h
  · split at h
    · split at h
      · cases h
        rfl
      · rename_i xs heq2
        split at h
        · cases h
          rfl
        · rename_i env3 heq3
          cases h
          exact add_fn_ok_length _ _ _ _ _ heq3
    · cases h
      rfl
  · exact nomatch h

theorem pop_context_length (env : Environment) :
    (env.pop_context).contexts.length = env.contexts.length - 1 := by
  simp [Environment.pop_context]

set_option maxHeartbeats 1600000 in
/-- Every evaluation function returns (on its normal `ok` path, error
results included) with exactly as many environment frames as it started
with: the frame pushed by a function application is popped on both the
success path and the error path. -/
theorem frames_preserved_aux : ∀ f : Nat,
    (∀ e env r env2, eval f e env = .ok (r, env2) →
      env2.contexts.length = env.contexts.length) ∧
    (∀ ex sym args env r env2, evalSymbol f ex sym args env = .ok (r, env2) →
      env2.contexts.length = env.contexts.length) ∧
    (∀ ps env res env2, evalArgs f ps env = .ok (res, env2) →
      env2.contexts.length = env.contexts.length) ∧
    (∀ msg vs env res env2, evalNums msg f vs env = .ok (res, env2) →
      env2.contexts.length = env.contexts.length) ∧
    (∀ vs env r env2, addVals f vs env = .ok (r, env2) →
      env2.contexts.length = env.contexts.length) ∧
    (∀ vs env r env2, subVals f vs env = .ok (r, env2) →
      env2.contexts.length = env.contexts.length) ∧
    (∀ vs env r env2, mulVals f vs env = .ok (r, env2) →
      env2.contexts.length = env.contexts.length) ∧
    (∀ vs env r env2, divVals f vs env = .ok (r, env2) →
      env2.contexts.length = env.contexts.length) ∧
    (∀ vs env res env2, evalExprs f vs env = .ok (res, env2) →
      env2.contexts.length = env.contexts.length) ∧
    (∀ vs env r env2, equality f vs env = .ok (r, env2) →
      env2.contexts.length = env.contexts.length) ∧
    (∀ vs env r env2, inequality f vs env = .ok (r, env2) →
      env2.contexts.length = env.contexts.length) ∧
    (∀ a env r env2, notOp f a env = .ok (r, env2) →
      env2.contexts.length = env.contexts.length) ∧
    (∀ vs env r env2, addVarToEnv f vs env = .ok (r, env2) →
      env2.contexts.length = env.contexts.length) ∧
    (∀ bs env r env2, ifThenElse f bs env = .ok (r, env2) →
      env2.contexts.length = env.contexts.length) ∧
    (∀ vs env r env2, evalList f vs env = .ok (r, env2) →
      env2.contexts.length = env.contexts.length) ∧
    (∀ vs env res env2, evalGeneric f vs env = .ok (res, env2) →
      env2.contexts.length = env.contexts.length) := by
  intro f
  induction f with
  | zero =>
    refine ⟨?_, ?_, ?_, ?_, ?_, ?_, ?_, ?_, ?_, ?_, ?_, ?_, ?_, ?_, ?_, ?_⟩ <;>
      (intros; rename_i hh; exact nomatch hh)
  | succ f ih =>
    obtain ⟨ihEval, ihSym, ihArgs, ihNums, ihAdd, ihSub, ihMul, ihDiv, ihExprs,
      ihEq, ihNeq, ihNot, ihLet, ihIf, ihList, ihGen⟩ := ih
    have numsStep : ∀ msg vs env res env2, evalNums msg (f+1) vs env = .ok (res, env2) →
        env2.contexts.length = env.contexts.length := by
      intro msg vs env res env2 h
      cases vs with
      | nil =>
        cases h
        rfl
      | cons v vs2 =>
        simp only [evalNums] at h
        rcases hev : eval f v env with ⟨⟨msg2 | ex | -, env1⟩⟩ | - | -
        · simp only [hev] at h
          cases h
          exact ihEval _ _ _ _ hev
        · rcases ex with n | s | l
          · simp only [hev] at h
            rcases hrec : evalNums msg f vs2 env1 with ⟨⟨em | ns, env5⟩⟩ | - | -
            · simp only [hrec] at h
              cases h
              rw [ihNums _ _ _ _ _ hrec, ihEval _ _ _ _ hev]
            · simp only [hrec] at h
              cases h
              rw [ihNums _ _ _ _ _ hrec, ihEval _ _ _ _ hev]
            · simp only [hrec] at h
              exact nomatch h
            · simp only [hrec] at h
              exact nomatch h
          · simp only [hev] at h
            cases h
            exact ihEval _ _ _ _ hev
          · simp only [hev] at h
            cases h
            exact ihEval _ _ _ _ hev
        · simp only [hev] at h
          cases h
          exact ihEval _ _ _ _ hev
        · simp only [hev] at h
          exact nomatch h
        · simp only [hev] at h
          exact nomatch h
    have argsStep : ∀ ps env res env2, evalArgs (f+1) ps env = .ok (res, env2) →
        env2.contexts.length = env.contexts.length := by
      intro ps env res env2 h
      cases ps with
      | nil =>
        cases h
        rfl
      | cons p ps2 =>
        simp only [evalArgs] at h
        rcases hev : eval f p.1 env with ⟨⟨msg2 | ex | -, env1⟩⟩ | - | -
        · simp only [hev] at h
          cases h
          exact ihEval _ _ _ _ hev
        · simp only [hev] at h
          rcases hrec : evalArgs f ps2 env1 with ⟨⟨em | rest2, env5⟩⟩ | - | -
          · simp only [hrec] at h
            cases h
            rw [ihArgs _ _ _ _ hrec, ihEval _ _ _ _ hev]
          · simp only [hrec] at h
            cases h
            rw [ihArgs _ _ _ _ hrec, ihEval _ _ _ _ hev]
          · simp only [hrec] at h
            exact nomatch h
          · simp only [hrec] at h
            exact nomatch h
        · simp only [hev] at h
          cases h
          exact ihEval _ _ _ _ hev
        · simp only [hev] at h
          exact nomatch h
        · simp only [hev] at h
          exact nomatch h
    have exprsStep : ∀ vs env res env2, evalExprs (f+1) vs env = .ok (res, env2) →
        env2.contexts.length = env.contexts.length := by
      intro vs env res env2 h
      cases vs with
      | nil =>
        cases h
        rfl
      | cons v vs2 =>
        simp only [evalExprs] at h
        rcases hev : eval f v env with ⟨⟨msg2 | ex | -, env1⟩⟩ | - | -
        · simp only [hev] at h
          cases h
          exact ihEval _ _ _ _ hev
        · simp only [hev] at h
          rcases hrec : evalExprs f vs2 env1 with ⟨⟨em | es, env5⟩⟩ | - | -
          · simp only [hrec] at h
            cases h
            rw [ihExprs _ _ _ _ hrec, ihEval _ _ _ _ hev]
          · simp only [hrec] at h
            cases h
            rw [ihExprs _ _ _ _ hrec, ihEval _ _ _ _ hev]
          · simp only [hrec] at h
            exact nomatch h
          · simp only [hrec] at h
            exact nomatch h
        · simp only [hev] at h
          cases h
          exact ihEval _ _ _ _ hev
        · simp only [hev] at h
          exact nomatch h
        · simp only [hev] at h
          exact nomatch h
    have genStep : ∀ vs env res env2, evalGeneric (f+1) vs env = .ok (res, env2) →
        env2.contexts.length = env.contexts.length := by
      intro vs env res env2 h
      cases vs with
      | nil =>
        cases h
        rfl
      | cons v vs2 =>
        simp only [evalGeneric] at h
        rcases hev : eval f v env with ⟨⟨msg2 | ex | -, env1⟩⟩ | - | -
        · simp only [hev] at h
          cases h
          exact ihEval _ _ _ _ hev
        · simp only [hev] at h
          rcases hrec : evalGeneric f vs2 env1 with ⟨⟨em | es, env5⟩⟩ | - | -
          · simp only [hrec] at h
            cases h
            rw [ihGen _ _ _ _ hrec, ihEval _ _ _ _ hev]
          · simp only [hrec] at h
            cases h
            rw [ihGen _ _ _ _ hrec, ihEval _ _ _ _ hev]
          · simp only [hrec] at h
            exact nomatch h
          · simp only [hrec] at h
            exact nomatch h
        · simp only [hev] at h
          rw [ihGen _ _ _ _ h, ihEval _ _ _ _ hev]
        · simp only [hev] at h
          exact nomatch h
        · simp only [hev] at h
          exact nomatch h
    have listStep : ∀ vs env r env2, evalList (f+1) vs env = .ok (r, env2) →
        env2.contexts.length = env.contexts.length := by
      intro vs env r env2 h
      simp only [evalList] at h
      rcases hgen : evalGeneric f vs env with ⟨⟨r1 | es, env1⟩⟩ | - | -
      · simp only [hgen] at h
        cases h
        exact ihGen _ _ _ _ hgen
      · simp only [hgen] at h
        cases h
        exact ihGen _ _ _ _ hgen
      · simp only [hgen] at h
        exact nomatch h
      · simp only [hgen] at h
        exact nomatch h
    have addStep : ∀ vs env r env2, addVals (f+1) vs env = .ok (r, env2) →
        env2.contexts.length = env.contexts.length := by
      intro vs env r env2 h
      simp only [addVals] at h
      split at h
      · cases h
        rfl
      · rcases hn : evalNums ("Can only sum numbers, got ") f vs env
            with ⟨⟨em | xs, env1⟩⟩ | - | -
        · simp only [hn] at h
          cases h
          exact ihNums _ _ _ _ _ hn
        · simp only [hn] at h
          cases h
          exact ihNums _ _ _ _ _ hn
        · simp only [hn] at h
          exact nomatch h
        · simp only [hn] at h
          exact nomatch h
    have subStep : ∀ vs env r env2, subVals (f+1) vs env = .ok (r, env2) →
        env2.contexts.length = env.contexts.length := by
      intro vs env r env2 h
      simp only [subVals] at h
      split at h
      · cases h
        rfl
      · rcases hn : evalNums ("Can only subtract numers, got ") f vs env
            with ⟨⟨em | xs, env1⟩⟩ | - | -
        · simp only [hn] at h
          cases h
          exact ihNums _ _ _ _ _ hn
        · simp only [hn] at h
          rcases xs with - | ⟨x0, xrest⟩
          · simp only [subtract] at h
            exact nomatch h
          · simp only [subtract] at h
            cases h
            exact ihNums _ _ _ _ _ hn
        · simp only [hn] at h
          exact nomatch h
        · simp only [hn] at h
          exact nomatch h
    have mulStep : ∀ vs env r env2, mulVals (f+1) vs env = .ok (r, env2) →
        env2.contexts.length = env.contexts.length := by
      intro vs env r env2 h
      simp only [mulVals] at h
      split at h
      · cases h
        rfl
      · rcases hn : evalNums ("Can only sum numers, got ") f vs env
            with ⟨⟨em | xs, env1⟩⟩ | - | -
        · simp only [hn] at h
          cases h
          exact ihNums _ _ _ _ _ hn
        · simp only [hn] at h
          cases h
          exact ihNums _ _ _ _ _ hn
        · simp only [hn] at h
          exact nomatch h
        · simp only [hn] at h
          exact nomatch h
    have divStep : ∀ vs env r env2, divVals (f+1) vs env = .ok (r, env2) →
        env2.contexts.length = env.contexts.length := by
      intro vs env r env2 h
      simp only [divVals] at h
      split at h
      · cases h
        rfl
      · rcases hn : evalNums ("Can only sum numers, got ") f vs env
            with ⟨⟨em | xs, env1⟩⟩ | - | -
        · simp only [hn] at h
          cases h
          exact ihNums _ _ _ _ _ hn
        · simp only [hn] at h
          rcases xs with - | ⟨x0, xrest⟩
          · simp only [divide] at h
            exact nomatch h
          · simp only [divide] at h
            cases h
            exact ihNums _ _ _ _ _ hn
        · simp only [hn] at h
          exact nomatch h
        · simp only [hn] at h
          exact nomatch h
    have eqStep : ∀ vs env r env2, equality (f+1) vs env = .ok (r, env2) →
        env2.contexts.length = env.contexts.length := by
      intro vs env r env2 h
      simp only [equality] at h
      split at h
      · cases h
        rfl
      · rcases he : evalExprs f vs env with ⟨⟨em | xs, env1⟩⟩ | - | -
        · simp only [he] at h
          cases h
          exact ihExprs _ _ _ _ he
        · simp only [he] at h
          rcases xs with - | ⟨x0, xrest⟩
          · simp only [isEqualList] at h
            exact nomatch h
          · simp only [isEqualList] at h
            cases h
            exact ihExprs _ _ _ _ he
        · simp only [he] at h
          exact nomatch h
        · simp only [he] at h
          exact nomatch h
    have neqStep : ∀ vs env r env2, inequality (f+1) vs env = .ok (r, env2) →
        env2.contexts.length = env.contexts.length := by
      intro vs env r env2 h
      simp only [inequality] at h
      split at h
      · cases h
        rfl
      · rcases he : evalExprs f vs env with ⟨⟨em | xs, env1⟩⟩ | - | -
        · simp only [he] at h
          cases h
          exact ihExprs _ _ _ _ he
        · simp only [he] at h
          rcases xs with - | ⟨x0, xrest⟩
          · simp only [isEqualSymbol] at h
            exact nomatch h
          · simp only [isEqualSymbol] at h
            cases h
            exact ihExprs _ _ _ _ he
        · simp only [he] at h
          exact nomatch h
        · simp only [he] at h
          exact nomatch h
    have notStep : ∀ a env r env2, notOp (f+1) a env = .ok (r, env2) →
        env2.contexts.length = env.contexts.length := by
      intro a env r env2 h
      simp only [notOp] at h
      rcases hev : eval f a env with ⟨⟨msg2 | ex | -, env1⟩⟩ | - | -
      · simp only [hev] at h
        cases h
        exact ihEval _ _ _ _ hev
      · rcases a with n | s | l
        · simp only [hev] at h
          cases h
          exact ihEval _ _ _ _ hev
        · simp only [hev] at h
          split at h
          · cases h
            exact ihEval _ _ _ _ hev
          · split at h
            · cases h
              exact ihEval _ _ _ _ hev
            · cases h
              exact ihEval _ _ _ _ hev
        · rcases l with - | ⟨x0, xs⟩
          · simp only [hev, isEqualList] at h
            exact nomatch h
          · simp only [hev, isEqualList] at h
            cases h
            exact ihEval _ _ _ _ hev
      · rcases a with n | s | l
        · simp only [hev] at h
          cases h
          exact ihEval _ _ _ _ hev
        · simp only [hev] at h
          split at h
          · cases h
            exact ihEval _ _ _ _ hev
          · split at h
            · cases h
              exact ihEval _ _ _ _ hev
            · cases h
              exact ihEval _ _ _ _ hev
        · rcases l with - | ⟨x0, xs⟩
          · simp only [hev, isEqualList] at h
            exact nomatch h
          · simp only [hev, isEqualList] at h
            cases h
            exact ihEval _ _ _ _ hev
      · simp only [hev] at h
        exact nomatch h
      · simp only [hev] at h
        exact nomatch h
    have letStep : ∀ vs env r env2, addVarToEnv (f+1) vs env = .ok (r, env2) →
        env2.contexts.length = env.contexts.length := by
      intro vs env r env2 h
      rcases vs with - | ⟨v0, - | ⟨v1, - | ⟨v2, vrest⟩⟩⟩
      · simp only [addVarToEnv] at h
        cases h
        rfl
      · simp only [addVarToEnv] at h
        cases h
        rfl
      · rcases v0 with n | s | l
        · simp only [addVarToEnv] at h
          cases h
          rfl
        · simp only [addVarToEnv] at h
          rcases hev : eval f v1 env with ⟨⟨msg2 | e1 | -, env1⟩⟩ | - | -
          · simp only [hev] at h
            cases h
            exact ihEval _ _ _ _ hev
          · simp only [hev] at h
            rcases hadd : env1.add_var s e1 with em | env3
            · simp only [hadd] at h
              cases h
              exact ihEval _ _ _ _ hev
            · simp only [hadd] at h
              cases h
              rw [add_var_ok_length _ _ _ _ hadd, ihEval _ _ _ _ hev]
          · simp only [hev] at h
            cases h
            exact ihEval _ _ _ _ hev
          · simp only [hev] at h
            exact nomatch h
          · simp only [hev] at h
            exact nomatch h
        · simp only [addVarToEnv] at h
          cases h
          rfl
      · simp only [addVarToEnv] at h
        cases h
        rfl
    have ifStep : ∀ bs env r env2, ifThenElse (f+1) bs env = .ok (r, env2) →
        env2.contexts.length = env.contexts.length := by
      intro bs env r env2 h
      rcases bs with - | ⟨b0, - | ⟨b1, - | ⟨b2, - | ⟨b3, brest⟩⟩⟩⟩
      · simp only [ifThenElse] at h
        cases h
        rfl
      · simp only [ifThenElse] at h
        cases h
        rfl
      · simp only [ifThenElse] at h
        cases h
        rfl
      · simp only [ifThenElse] at h
        rcases h0 : eval f b0 env with ⟨⟨msg2 | e1 | -, env1⟩⟩ | - | -
        · simp only [h0] at h
          cases h
          exact ihEval _ _ _ _ h0
        · simp only [h0] at h
          rcases h1 : eval f (if e1 = Expr.list [] then b2 else b1) env1
              with ⟨⟨r5, env5⟩⟩ | - | -
          · simp only [h1] at h
            rw [ihEval _ _ _ _ h, ihEval _ _ _ _ h1, ihEval _ _ _ _ h0]
          · simp only [h1] at h
            exact nomatch h
          · simp only [h1] at h
            exact nomatch h
        · simp only [h0] at h
          cases h
          exact ihEval _ _ _ _ h0
        · simp only [h0] at h
          exact nomatch h
        · simp only [h0] at h
          exact nomatch h
      · simp only [ifThenElse] at h
        cases h
        rfl
    have symStep : ∀ ex sym args env r env2, evalSymbol (f+1) ex sym args env = .ok (r, env2) →
        env2.contexts.length = env.contexts.length := by
      intro ex sym args env r env2 h
      rcases hlk : env.lookup sym with - | ⟨pnames, body2⟩
      · simp only [evalSymbol, hlk] at h
        cases h
        rfl
      · simp only [evalSymbol, hlk] at h
        split at h
        · exact ihEval _ _ _ _ h
        · split at h
          · cases h
            rfl
          · rcases ha : evalArgs f (args.zip pnames) env with ⟨⟨em | argum, env1⟩⟩ | - | -
            · simp only [ha] at h
              cases h
              exact ihArgs _ _ _ _ ha
            · simp only [ha] at h
              rcases hb : eval f body2 (argum.foldl
                  (fun acc nv => acc.add_var_discard nv.1 nv.2) env1.push_context)
                  with ⟨⟨r3, env3⟩⟩ | - | -
              · simp only [hb] at h
                cases h
                have h1 := ihArgs _ _ _ _ ha
                have h2 := ihEval _ _ _ _ hb
                have h3 : (argum.foldl (fun acc nv => acc.add_var_discard nv.1 nv.2)
                    env1.push_context).contexts.length = env1.contexts.length + 1 := by
                  rw [foldl_add_var_discard_length]
                  rfl
                rw [pop_context_length]
                omega
              · simp only [hb] at h
                exact nomatch h
              · simp only [hb] at h
                exact nomatch h
            · simp only [ha] at h
              exact nomatch h
            · simp only [ha] at h
              exact nomatch h
    have evalStep : ∀ e env r env2, eval (f+1) e env = .ok (r, env2) →
        env2.contexts.length = env.contexts.length := by
      intro e env r env2 h
      rcases e with n | s | vals
      · simp only [eval] at h
        cases h
        rfl
      · simp only [eval] at h
        exact ihSym _ _ _ _ _ _ h
      · cases vals with
        | nil =>
          simp only [eval] at h
          cases h
          rfl
        | cons op rest =>
          rcases op with n | s | l
          · simp only [eval] at h
            exact ihList _ _ _ _ h
          · rcases rest with - | ⟨a, arest⟩
            · replace h : (if s = "+" then addVals f [] env
                else if s = "-" then subVals f [] env
                else if s = "*" then mulVals f [] env
                else if s = "/" then divVals f [] env
                else if s = "=" then equality f [] env
                else if s = "!=" then inequality f [] env
                else if s = "not" then Step.panic
                else if s = "and" then .ok (boolAnd [], env)
                else if s = "or" then .ok (boolOr [], env)
                else if s = "fn" then addFnToEnv [] env
                else if s = "let" then addVarToEnv f [] env
                else if s = "print" then .ok (.unit, env)
                else if s = "if" then ifThenElse f [] env
                else if env.contains_key s then
                  evalSymbol f (.list [.symbol s]) s [] env
                else evalList f [.symbol s] env) = .ok (r, env2) := h
              by_cases hc0 : s = "+"
              · rw [if_pos hc0] at h
                exact ihAdd _ _ _ _ h
              rw [if_neg hc0] at h
              by_cases hc1 : s = "-"
              · rw [if_pos hc1] at h
                exact ihSub _ _ _ _ h
              rw [if_neg hc1] at h
              by_cases hc2 : s = "*"
              · rw [if_pos hc2] at h
                exact ihMul _ _ _ _ h
              rw [if_neg hc2] at h
              by_cases hc3 : s = "/"
              · rw [if_pos hc3] at h
                exact ihDiv _ _ _ _ h
              rw [if_neg hc3] at h
              by_cases hc4 : s = "="
              · rw [if_pos hc4] at h
                exact ihEq _ _ _ _ h
              rw [if_neg hc4] at h
              by_cases hc5 : s = "!="
              · rw [if_pos hc5] at h
                exact ihNeq _ _ _ _ h
              rw [if_neg hc5] at h
              by_cases hc6 : s = "not"
              · rw [if_pos hc6] at h
                exact nomatch h
              rw [if_neg hc6] at h
              by_cases hc7 : s = "and"
              · rw [if_pos hc7] at h
                cases h
                rfl
              rw [if_neg hc7] at h
              by_cases hc8 : s = "or"
              · rw [if_pos hc8] at h
                cases h
                rfl
              rw [if_neg hc8] at h
              by_cases hc9 : s = "fn"
              · rw [if_pos hc9] at h
                exact addFnToEnv_length _ _ _ _ h
              rw [if_neg hc9] at h
              by_cases hc10 : s = "let"
              · rw [if_pos hc10] at h
                exact ihLet _ _ _ _ h
              rw [if_neg hc10] at h
              by_cases hc11 : s = "print"
              · rw [if_pos hc11] at h
                cases h
                rfl
              rw [if_neg hc11] at h
              by_cases hc12 : s = "if"
              · rw [if_pos hc12] at h
                exact ihIf _ _ _ _ h
              rw [if_neg hc12] at h
              by_cases hc13 : env.contains_key s = true
              · rw [if_pos hc13] at h
                exact ihSym _ _ _ _ _ _ h
              rw [if_neg hc13] at h
              exact ihList _ _ _ _ h
            · replace h : (if s = "+" then addVals f (a :: arest) env
                else if s = "-" then subVals f (a :: arest) env
                else if s = "*" then mulVals f (a :: arest) env
                else if s = "/" then divVals f (a :: arest) env
                else if s = "=" then equality f (a :: arest) env
                else if s = "!=" then inequality f (a :: arest) env
                else if s = "not" then notOp f a env
                else if s = "and" then .ok (boolAnd (a :: arest), env)
                else if s = "or" then .ok (boolOr (a :: arest), env)
                else if s = "fn" then addFnToEnv (a :: arest) env
                else if s = "let" then addVarToEnv f (a :: arest) env
                else if s = "print" then .ok (.unit, env)
                else if s = "if" then ifThenElse f (a :: arest) env
                else if env.contains_key s then
                  evalSymbol f (.list (.symbol s :: a :: arest)) s (a :: arest) env
                else evalList f (.symbol s :: a :: arest) env) = .ok (r, env2) := h
              by_cases hc0 : s = "+"
              · rw [if_pos hc0] at h
                exact ihAdd _ _ _ _ h
              rw [if_neg hc0] at h
              by_cases hc1 : s = "-"
              · rw [if_pos hc1] at h
                exact ihSub _ _ _ _ h
              rw [if_neg hc1] at h
              by_cases hc2 : s = "*"
              · rw [if_pos hc2] at h
                exact ihMul _ _ _ _ h
              rw [if_neg hc2] at h
              by_cases hc3 : s = "/"
              · rw [if_pos hc3] at h
                exact ihDiv _ _ _ _ h
              rw [if_neg hc3] at h
              by_cases hc4 : s = "="
              · rw [if_pos hc4] at h
                exact ihEq _ _ _ _ h
              rw [if_neg hc4] at h
              by_cases hc5 : s = "!="
              · rw [if_pos hc5] at h
                exact ihNeq _ _ _ _ h
              rw [if_neg hc5] at h
              by_cases hc6 : s = "not"
              · rw [if_pos hc6] at h
                exact ihNot _ _ _ _ h
              rw [if_neg hc6] at h
              by_cases hc7 : s = "and"
              · rw [if_pos hc7] at h
                cases h
                rfl
              rw [if_neg hc7] at h
              by_cases hc8 : s = "or"
              · rw [if_pos hc8] at h
                cases h
                rfl
              rw [if_neg hc8] at h
              by_cases hc9 : s = "fn"
              · rw [if_pos hc9] at h
                exact addFnToEnv_length _ _ _ _ h
              rw [if_neg hc9] at h
              by_cases hc10 : s = "let"
              · rw [if_pos hc10] at h
                exact ihLet _ _ _ _ h
              rw [if_neg hc10] at h
              by_cases hc11 : s = "print"
              · rw [if_pos hc11] at h
                cases h
                rfl
              rw [if_neg hc11] at h
              by_cases hc12 : s = "if"
              · rw [if_pos hc12] at h
                exact ihIf _ _ _ _ h
              rw [if_neg hc12] at h
              by_cases hc13 : env.contains_key s = true
              · rw [if_pos hc13] at h
                exact ihSym _ _ _ _ _ _ h
              rw [if_neg hc13] at h
              exact ihList _ _ _ _ h
          · simp only [eval] at h
            exact ihList _ _ _ _ h
    exact ⟨evalStep, symStep, argsStep, numsStep, addStep, subStep, mulStep, divStep,
      exprsStep, eqStep, neqStep, notStep, letStep, ifStep, listStep, genStep⟩

/-- C9: `eval` returns with the environment's frame count equal to the
count it started with, on every normal exit path including error results:
the frame pushed for a function application is popped before `eval_symbol`
returns, whether the body evaluation succeeds or fails. -/
theorem eval_preserves_frame_count (f : Nat) (e : Expr) (env : Environment)
    (r : EvalResult) (env2 : Environment) (h : eval f e env = .ok (r, env2)) :
    env2.num_contexts = env.num_contexts :=
  (frames_preserved_aux f).1 e env r env2 h

/-- Witness for C9: a two-frame environment holding a one-parameter
function `g`; the call `(g 1)` pushes and pops a frame and returns with the
same two frames. -/
theorem eval_preserves_frame_count_witness :
    (⟨[[(("g"), (["x"], Expr.symbol ("x")))], []]⟩ : Environment).num_contexts
      = (⟨[[(("g"), (["x"], Expr.symbol ("x")))], []]⟩ : Environment).num_contexts :=
  eval_preserves_frame_count 6 (.list [.symbol ("g"), .fnum 1])
    ⟨[[(("g"), (["x"], Expr.symbol ("x")))], []]⟩
    (.expr (.fnum 1)) ⟨[[(("g"), (["x"], Expr.symbol ("x")))], []]⟩ (by rfl)
